import Mathlib

/-!
Verification of the Proximity Run Extractor of TE_dupfinder.

The two command-line filters `down.py` (FromFirstRecord mode) and `up.py`
(FromCoordinate mode) are embedded below.  A text line is modelled as a
`List Char`; Python's `str.strip`, `str.split('\t')`, `str.split()` and
`int(...)` are modelled character by character, and the two scripts'
procedures are translated clause for clause.

`down.py`'s `process_bed` returns `Option (List PyStr)`: `some out` models a
normal return of the list `out`, while `none` models an uncaught Python
exception escaping the function (there is one reachable site: the anchor's
`prev_end = int(parts[2])` sits outside the `try` block, so a non-numeric
end column at the anchor raises an uncaught `ValueError`).
-/

/-- A Python string, modelled as its list of characters. -/
abbrev PyStr := List Char

/-- The characters Python's `str.strip()` removes (the ASCII whitespace
class used by `str.split()` as well). -/
def isPySpace (c : Char) : Bool :=
  c = ' ' || c = '\t' || c = '\n' || c = '\r' || c = '\x0b' || c = '\x0c'

/-- Python `s.strip()`: drop leading, then trailing, whitespace. -/
def pyStrip (s : PyStr) : PyStr :=
  List.rdropWhile isPySpace (List.dropWhile isPySpace s)

/-- Python `s.split('\t')`: split at every tab, keeping empty tokens
(`''.split('\t') == ['']`). -/
def splitTab : PyStr → List PyStr
  | [] => [[]]
  | c :: rest =>
    if c = '\t' then [] :: splitTab rest
    else
      match splitTab rest with
      | [] => [[c]]
      | t :: ts => (c :: t) :: ts

/-- Worker for `splitWs`: `acc` holds the (reversed) token being read. -/
def splitWsAux : PyStr → PyStr → List PyStr
  | [], acc => if acc.isEmpty then [] else [acc.reverse]
  | c :: rest, acc =>
    if isPySpace c then
      (if acc.isEmpty then [] else [acc.reverse]) ++ splitWsAux rest []
    else
      splitWsAux rest (c :: acc)

/-- Python `s.split()` (no separator argument): split on maximal runs of
whitespace, producing no empty tokens (`''.split() == []`). -/
def splitWs (s : PyStr) : List PyStr := splitWsAux s []

/-- Python `'\t'.join(fields)`. -/
def joinTab : List PyStr → PyStr
  | [] => []
  | [t] => t
  | t :: t2 :: ts => t ++ '\t' :: joinTab (t2 :: ts)

/-- ASCII decimal digit test. -/
def isDigitCh (c : Char) : Bool := '0' ≤ c && c ≤ '9'

/-- Numeric value of a digit string. -/
def digitsToNat (s : PyStr) : Nat :=
  s.foldl (fun a c => a * 10 + (c.toNat - 48)) 0

/-- Core of Python `int(str)` after whitespace stripping: an optional sign
followed by a nonempty run of digits. -/
def pyIntCore (t : PyStr) : Option Int :=
  match t with
  | '+' :: ds =>
    if !ds.isEmpty && ds.all isDigitCh then some (digitsToNat ds : Int) else none
  | '-' :: ds =>
    if !ds.isEmpty && ds.all isDigitCh then some (-(digitsToNat ds : Int)) else none
  | ds =>
    if !ds.isEmpty && ds.all isDigitCh then some (digitsToNat ds : Int) else none

/-- Python `int(s)` on a string: `some n` on success, `none` when a
`ValueError` would be raised. -/
def pyInt? (s : PyStr) : Option Int := pyIntCore (pyStrip s)

/-- The scan loop of `down.py`'s `process_bed` (`for line in lines[1:]`):
skip lines with fewer than 4 tab-separated columns or non-integer
coordinates; accept while `curr_start <= prev_end + distance`, updating
`prev_end`; `break` on the first failure. -/
def downLoop (distance : Int) : Int → List PyStr → List PyStr
  | _, [] => []
  | prevEnd, line :: rest =>
    let parts := splitTab line
    if parts.length < 4 then downLoop distance prevEnd rest
    else
      match pyInt? (parts.getD 1 []) with
      | none => downLoop distance prevEnd rest
      | some currStart =>
        match pyInt? (parts.getD 2 []) with
        | none => downLoop distance prevEnd rest
        | some currEnd =>
          if currStart ≤ prevEnd + distance then
            line :: downLoop distance currEnd rest
          else []

/-- `down.py`'s `process_bed`, on the raw lines of the input file.
`some out` is a normal return; `none` is the uncaught `ValueError` raised
by `prev_end = int(parts[2])` (which sits outside the `try`). -/
def process_bed (raw : List PyStr) (distance : Int) : Option (List PyStr) :=
  let lines := (raw.map pyStrip).filter (fun l => !l.isEmpty)
  match lines with
  | [] => some []
  | firstLine :: rest =>
    let parts := splitTab firstLine
    if parts.length < 4 then some []
    else
      match pyInt? (parts.getD 1 []) with
      | none => some []
      | some start =>
        if start - 1 > distance then some []
        else
          match pyInt? (parts.getD 2 []) with
          | none => none
          | some prevEnd => some (firstLine :: downLoop distance prevEnd rest)

/-- `up.py`'s per-line preprocessing `line.strip().split()`. -/
def parseLine (l : PyStr) : List PyStr := splitWs (pyStrip l)

/-- The scan loop of `up.py`'s `main` (`for line in lines[1:]`): skip lines
with fewer than 4 fields; `break` when the chromosome changes; skip lines
with non-integer coordinates; accept on overlap or gap within `distance`,
updating `prev_start`/`prev_end`; `break` on the first predicate failure. -/
def upLoop (distance : Int) (chr1 : PyStr) : Int → Int → List (List PyStr) → List (List PyStr)
  | _, _, [] => []
  | prevStart, prevEnd, line :: rest =>
    if line.length < 4 then upLoop distance chr1 prevStart prevEnd rest
    else if line.getD 0 [] ≠ chr1 then []
    else
      match pyInt? (line.getD 1 []) with
      | none => upLoop distance chr1 prevStart prevEnd rest
      | some currStart =>
        match pyInt? (line.getD 2 []) with
        | none => upLoop distance chr1 prevStart prevEnd rest
        | some currEnd =>
          if (currStart < prevEnd ∧ currEnd > prevStart) ∨
             (if currStart ≥ prevEnd then max 0 (currStart - prevEnd)
              else max 0 (prevStart - currEnd)) ≤ distance then
            line :: upLoop distance chr1 currStart currEnd rest
          else []

/-- `up.py`'s `main`, on the raw lines of the input file, returning the
accepted records as field lists (the script prints them tab-joined). -/
def upMain (raw : List PyStr) (coordinate distance : Int) : List (List PyStr) :=
  let lines := raw.map parseLine
  match lines with
  | [] => []
  | firstLine :: rest =>
    if firstLine.length < 4 then []
    else
      match pyInt? (firstLine.getD 1 []) with
      | none => []
      | some start1 =>
        match pyInt? (firstLine.getD 2 []) with
        | none => []
        | some end1 =>
          if |coordinate - end1| > distance then []
          else firstLine :: upLoop distance (firstLine.getD 0 []) start1 end1 rest

/-! ### Helper lemmas: step equations, sublist, monotonicity, idempotence, unfoldings -/

theorem downLoop_cons_short (d p : Int) (line : PyStr) (rest : List PyStr)
    (h4 : (splitTab line).length < 4) :
    downLoop d p (line :: rest) = downLoop d p rest := by
  rw [downLoop]; simp [h4]

theorem downLoop_cons_bad1 (d p : Int) (line : PyStr) (rest : List PyStr)
    (h4 : ¬ (splitTab line).length < 4)
    (h1 : pyInt? ((splitTab line).getD 1 []) = none) :
    downLoop d p (line :: rest) = downLoop d p rest := by
  rw [downLoop]; simp only [if_neg h4, h1]

theorem downLoop_cons_bad2 (d p s : Int) (line : PyStr) (rest : List PyStr)
    (h4 : ¬ (splitTab line).length < 4)
    (h1 : pyInt? ((splitTab line).getD 1 []) = some s)
    (h2 : pyInt? ((splitTab line).getD 2 []) = none) :
    downLoop d p (line :: rest) = downLoop d p rest := by
  rw [downLoop]; simp only [if_neg h4, h1, h2]

theorem downLoop_cons_valid (d p s e : Int) (line : PyStr) (rest : List PyStr)
    (h4 : ¬ (splitTab line).length < 4)
    (h1 : pyInt? ((splitTab line).getD 1 []) = some s)
    (h2 : pyInt? ((splitTab line).getD 2 []) = some e) :
    downLoop d p (line :: rest) =
      if s ≤ p + d then line :: downLoop d e rest else [] := by
  rw [downLoop]; simp only [if_neg h4, h1, h2]

theorem downLoop_sublist (d : Int) (l : List PyStr) :
    ∀ p, List.Sublist (downLoop d p l) l := by
  induction l with
  | nil => intro p; simp [downLoop]
  | cons line rest ih =>
    intro p
    by_cases h4 : (splitTab line).length < 4
    · rw [downLoop_cons_short d p line rest h4]; exact (ih p).cons _
    · cases h1 : pyInt? ((splitTab line).getD 1 []) with
      | none => rw [downLoop_cons_bad1 d p line rest h4 h1]; exact (ih p).cons _
      | some s =>
        cases h2 : pyInt? ((splitTab line).getD 2 []) with
        | none => rw [downLoop_cons_bad2 d p s line rest h4 h1 h2]; exact (ih p).cons _
        | some e =>
          rw [downLoop_cons_valid d p s e line rest h4 h1 h2]
          split
          · exact (ih e).cons₂ _
          · exact List.nil_sublist _

theorem upLoop_cons_short (d ps pe : Int) (c : PyStr) (line : List PyStr)
    (rest : List (List PyStr)) (h4 : line.length < 4) :
    upLoop d c ps pe (line :: rest) = upLoop d c ps pe rest := by
  rw [upLoop]; simp only [if_pos h4]

theorem upLoop_cons_diffchrom (d ps pe : Int) (c : PyStr) (line : List PyStr)
    (rest : List (List PyStr)) (h4 : ¬ line.length < 4)
    (hc : line.getD 0 [] ≠ c) :
    upLoop d c ps pe (line :: rest) = [] := by
  rw [upLoop]; simp only [if_neg h4, if_pos hc]

theorem upLoop_cons_bad1 (d ps pe : Int) (c : PyStr) (line : List PyStr)
    (rest : List (List PyStr)) (h4 : ¬ line.length < 4)
    (hc : line.getD 0 [] = c) (h1 : pyInt? (line.getD 1 []) = none) :
    upLoop d c ps pe (line :: rest) = upLoop d c ps pe rest := by
  rw [upLoop]; simp only [if_neg h4, hc, if_neg (by simp : ¬ (c ≠ c)), h1]

theorem upLoop_cons_bad2 (d ps pe s : Int) (c : PyStr) (line : List PyStr)
    (rest : List (List PyStr)) (h4 : ¬ line.length < 4)
    (hc : line.getD 0 [] = c) (h1 : pyInt? (line.getD 1 []) = some s)
    (h2 : pyInt? (line.getD 2 []) = none) :
    upLoop d c ps pe (line :: rest) = upLoop d c ps pe rest := by
  rw [upLoop]; simp only [if_neg h4, hc, if_neg (by simp : ¬ (c ≠ c)), h1, h2]

theorem upLoop_cons_valid (d ps pe s e : Int) (c : PyStr) (line : List PyStr)
    (rest : List (List PyStr)) (h4 : ¬ line.length < 4)
    (hc : line.getD 0 [] = c) (h1 : pyInt? (line.getD 1 []) = some s)
    (h2 : pyInt? (line.getD 2 []) = some e) :
    upLoop d c ps pe (line :: rest) =
      if (s < pe ∧ e > ps) ∨
         (if s ≥ pe then max 0 (s - pe) else max 0 (ps - e)) ≤ d then
        line :: upLoop d c s e rest
      else [] := by
  rw [upLoop]; simp only [if_neg h4, hc, if_neg (by simp : ¬ (c ≠ c)), h1, h2]

theorem upLoop_sublist (d : Int) (c : PyStr) (l : List (List PyStr)) :
    ∀ ps pe, List.Sublist (upLoop d c ps pe l) l := by
  induction l with
  | nil => intro ps pe; simp [upLoop]
  | cons line rest ih =>
    intro ps pe
    by_cases h4 : line.length < 4
    · rw [upLoop_cons_short d ps pe c line rest h4]; exact (ih ps pe).cons _
    · by_cases hc : line.getD 0 [] = c
      · cases h1 : pyInt? (line.getD 1 []) with
        | none =>
          rw [upLoop_cons_bad1 d ps pe c line rest h4 hc h1]
          exact (ih ps pe).cons _
        | some s =>
          cases h2 : pyInt? (line.getD 2 []) with
          | none =>
            rw [upLoop_cons_bad2 d ps pe s c line rest h4 hc h1 h2]
            exact (ih ps pe).cons _
          | some e =>
            rw [upLoop_cons_valid d ps pe s e c line rest h4 hc h1 h2]
            by_cases hp : (s < pe ∧ e > ps) ∨
                (if s ≥ pe then max 0 (s - pe) else max 0 (ps - e)) ≤ d
            · rw [if_pos hp]; exact (ih s e).cons₂ _
            · rw [if_neg hp]; exact List.nil_sublist _
      · rw [upLoop_cons_diffchrom d ps pe c line rest h4 hc]
        exact List.nil_sublist _

theorem downLoop_mono (d d' : Int) (hd : d ≤ d') (l : List PyStr) :
    ∀ p, ∃ t, downLoop d p l ++ t = downLoop d' p l := by
  induction l with
  | nil => intro p; exact ⟨[], rfl⟩
  | cons line rest ih =>
    intro p
    by_cases h4 : (splitTab line).length < 4
    · rw [downLoop_cons_short d p line rest h4, downLoop_cons_short d' p line rest h4]
      exact ih p
    · cases h1 : pyInt? ((splitTab line).getD 1 []) with
      | none =>
        rw [downLoop_cons_bad1 d p line rest h4 h1,
          downLoop_cons_bad1 d' p line rest h4 h1]
        exact ih p
      | some s =>
        cases h2 : pyInt? ((splitTab line).getD 2 []) with
        | none =>
          rw [downLoop_cons_bad2 d p s line rest h4 h1 h2,
            downLoop_cons_bad2 d' p s line rest h4 h1 h2]
          exact ih p
        | some e =>
          rw [downLoop_cons_valid d p s e line rest h4 h1 h2,
            downLoop_cons_valid d' p s e line rest h4 h1 h2]
          by_cases hp : s ≤ p + d
          · rw [if_pos hp, if_pos (le_trans hp (by linarith))]
            obtain ⟨t, ht⟩ := ih e
            exact ⟨t, by rw [List.cons_append, ht]⟩
          · rw [if_neg hp]
            exact ⟨_, List.nil_append _⟩

theorem upLoop_mono (d d' : Int) (hd : d ≤ d') (c : PyStr) (l : List (List PyStr)) :
    ∀ ps pe, ∃ t, upLoop d c ps pe l ++ t = upLoop d' c ps pe l := by
  induction l with
  | nil => intro ps pe; exact ⟨[], rfl⟩
  | cons line rest ih =>
    intro ps pe
    by_cases h4 : line.length < 4
    · rw [upLoop_cons_short d ps pe c line rest h4,
        upLoop_cons_short d' ps pe c line rest h4]
      exact ih ps pe
    · by_cases hc : line.getD 0 [] = c
      · cases h1 : pyInt? (line.getD 1 []) with
        | none =>
          rw [upLoop_cons_bad1 d ps pe c line rest h4 hc h1,
            upLoop_cons_bad1 d' ps pe c line rest h4 hc h1]
          exact ih ps pe
        | some s =>
          cases h2 : pyInt? (line.getD 2 []) with
          | none =>
            rw [upLoop_cons_bad2 d ps pe s c line rest h4 hc h1 h2,
              upLoop_cons_bad2 d' ps pe s c line rest h4 hc h1 h2]
            exact ih ps pe
          | some e =>
            rw [upLoop_cons_valid d ps pe s e c line rest h4 hc h1 h2,
              upLoop_cons_valid d' ps pe s e c line rest h4 hc h1 h2]
            by_cases hp : (s < pe ∧ e > ps) ∨
                (if s ≥ pe then max 0 (s - pe) else max 0 (ps - e)) ≤ d
            · have hp' : (s < pe ∧ e > ps) ∨
                  (if s ≥ pe then max 0 (s - pe) else max 0 (ps - e)) ≤ d' := by
                rcases hp with h | h
                · exact Or.inl h
                · exact Or.inr (le_trans h hd)
              rw [if_pos hp, if_pos hp']
              obtain ⟨t, ht⟩ := ih s e
              exact ⟨t, by rw [List.cons_append, ht]⟩
            · rw [if_neg hp]
              exact ⟨_, List.nil_append _⟩
      · rw [upLoop_cons_diffchrom d ps pe c line rest h4 hc,
          upLoop_cons_diffchrom d' ps pe c line rest h4 hc]
        exact ⟨[], rfl⟩

theorem downLoop_idem (d : Int) (l : List PyStr) :
    ∀ p, downLoop d p (downLoop d p l) = downLoop d p l := by
  induction l with
  | nil => intro p; rfl
  | cons line rest ih =>
    intro p
    by_cases h4 : (splitTab line).length < 4
    · rw [downLoop_cons_short d p line rest h4]; exact ih p
    · cases h1 : pyInt? ((splitTab line).getD 1 []) with
      | none => rw [downLoop_cons_bad1 d p line rest h4 h1]; exact ih p
      | some s =>
        cases h2 : pyInt? ((splitTab line).getD 2 []) with
        | none => rw [downLoop_cons_bad2 d p s line rest h4 h1 h2]; exact ih p
        | some e =>
          rw [downLoop_cons_valid d p s e line rest h4 h1 h2]
          by_cases hp : s ≤ p + d
          · rw [if_pos hp, downLoop_cons_valid d p s e line (downLoop d e rest) h4 h1 h2,
              if_pos hp, ih e]
          · rw [if_neg hp]; rfl

theorem upLoop_idem (d : Int) (c : PyStr) (l : List (List PyStr)) :
    ∀ ps pe, upLoop d c ps pe (upLoop d c ps pe l) = upLoop d c ps pe l := by
  induction l with
  | nil => intro ps pe; rfl
  | cons line rest ih =>
    intro ps pe
    by_cases h4 : line.length < 4
    · rw [upLoop_cons_short d ps pe c line rest h4]; exact ih ps pe
    · by_cases hc : line.getD 0 [] = c
      · cases h1 : pyInt? (line.getD 1 []) with
        | none => rw [upLoop_cons_bad1 d ps pe c line rest h4 hc h1]; exact ih ps pe
        | some s =>
          cases h2 : pyInt? (line.getD 2 []) with
          | none => rw [upLoop_cons_bad2 d ps pe s c line rest h4 hc h1 h2]; exact ih ps pe
          | some e =>
            rw [upLoop_cons_valid d ps pe s e c line rest h4 hc h1 h2]
            by_cases hp : (s < pe ∧ e > ps) ∨
                (if s ≥ pe then max 0 (s - pe) else max 0 (ps - e)) ≤ d
            · rw [if_pos hp,
                upLoop_cons_valid d ps pe s e c line (upLoop d c s e rest) h4 hc h1 h2,
                if_pos hp, ih s e]
            · rw [if_neg hp]; rfl
      · rw [upLoop_cons_diffchrom d ps pe c line rest h4 hc]; rfl

theorem process_bed_lines_nil (raw : List PyStr) (d : Int)
    (hl : (raw.map pyStrip).filter (fun l => !l.isEmpty) = []) :
    process_bed raw d = some [] := by
  rw [process_bed, hl]

theorem process_bed_short (raw : List PyStr) (d : Int) (f : PyStr) (rest : List PyStr)
    (hl : (raw.map pyStrip).filter (fun l => !l.isEmpty) = f :: rest)
    (h4 : (splitTab f).length < 4) :
    process_bed raw d = some [] := by
  rw [process_bed, hl]; simp only [if_pos h4]

theorem process_bed_bad1 (raw : List PyStr) (d : Int) (f : PyStr) (rest : List PyStr)
    (hl : (raw.map pyStrip).filter (fun l => !l.isEmpty) = f :: rest)
    (h4 : ¬ (splitTab f).length < 4)
    (h1 : pyInt? ((splitTab f).getD 1 []) = none) :
    process_bed raw d = some [] := by
  rw [process_bed, hl]; simp only [if_neg h4, h1]

theorem process_bed_far (raw : List PyStr) (d st : Int) (f : PyStr) (rest : List PyStr)
    (hl : (raw.map pyStrip).filter (fun l => !l.isEmpty) = f :: rest)
    (h4 : ¬ (splitTab f).length < 4)
    (h1 : pyInt? ((splitTab f).getD 1 []) = some st)
    (hfar : st - 1 > d) :
    process_bed raw d = some [] := by
  rw [process_bed, hl]; simp only [if_neg h4, h1, if_pos hfar]

theorem process_bed_crash (raw : List PyStr) (d st : Int) (f : PyStr) (rest : List PyStr)
    (hl : (raw.map pyStrip).filter (fun l => !l.isEmpty) = f :: rest)
    (h4 : ¬ (splitTab f).length < 4)
    (h1 : pyInt? ((splitTab f).getD 1 []) = some st)
    (hfar : ¬ st - 1 > d)
    (h2 : pyInt? ((splitTab f).getD 2 []) = none) :
    process_bed raw d = none := by
  rw [process_bed, hl]; simp only [if_neg h4, h1, if_neg hfar, h2]

theorem process_bed_anchor (raw : List PyStr) (d st en : Int) (f : PyStr) (rest : List PyStr)
    (hl : (raw.map pyStrip).filter (fun l => !l.isEmpty) = f :: rest)
    (h4 : ¬ (splitTab f).length < 4)
    (h1 : pyInt? ((splitTab f).getD 1 []) = some st)
    (hfar : ¬ st - 1 > d)
    (h2 : pyInt? ((splitTab f).getD 2 []) = some en) :
    process_bed raw d = some (f :: downLoop d en rest) := by
  rw [process_bed, hl]; simp only [if_neg h4, h1, if_neg hfar, h2]

theorem upMain_nil (tgt d : Int) : upMain [] tgt d = [] := rfl

theorem upMain_short (raw : List PyStr) (tgt d : Int) (g : List PyStr)
    (rest : List (List PyStr))
    (hl : raw.map parseLine = g :: rest) (h4 : g.length < 4) :
    upMain raw tgt d = [] := by
  rw [upMain, hl]; simp only [if_pos h4]

theorem upMain_bad1 (raw : List PyStr) (tgt d : Int) (g : List PyStr)
    (rest : List (List PyStr))
    (hl : raw.map parseLine = g :: rest) (h4 : ¬ g.length < 4)
    (h1 : pyInt? (g.getD 1 []) = none) :
    upMain raw tgt d = [] := by
  rw [upMain, hl]; simp only [if_neg h4, h1]

theorem upMain_bad2 (raw : List PyStr) (tgt d st : Int) (g : List PyStr)
    (rest : List (List PyStr))
    (hl : raw.map parseLine = g :: rest) (h4 : ¬ g.length < 4)
    (h1 : pyInt? (g.getD 1 []) = some st)
    (h2 : pyInt? (g.getD 2 []) = none) :
    upMain raw tgt d = [] := by
  rw [upMain, hl]; simp only [if_neg h4, h1, h2]

theorem upMain_far (raw : List PyStr) (tgt d st en : Int) (g : List PyStr)
    (rest : List (List PyStr))
    (hl : raw.map parseLine = g :: rest) (h4 : ¬ g.length < 4)
    (h1 : pyInt? (g.getD 1 []) = some st)
    (h2 : pyInt? (g.getD 2 []) = some en)
    (hfar : |tgt - en| > d) :
    upMain raw tgt d = [] := by
  rw [upMain, hl]; simp only [if_neg h4, h1, h2, if_pos hfar]

theorem upMain_anchor (raw : List PyStr) (tgt d st en : Int) (g : List PyStr)
    (rest : List (List PyStr))
    (hl : raw.map parseLine = g :: rest) (h4 : ¬ g.length < 4)
    (h1 : pyInt? (g.getD 1 []) = some st)
    (h2 : pyInt? (g.getD 2 []) = some en)
    (hfar : ¬ |tgt - en| > d) :
    upMain raw tgt d = g :: upLoop d (g.getD 0 []) st en rest := by
  rw [upMain, hl]; simp only [if_neg h4, h1, h2, if_neg hfar]

/-! ### Claim theorems -/

/-- C1: In FromFirstRecord mode (`down.py`), after the anchor is
established, a valid record (≥4 tab-separated fields, integer coordinates)
is accepted iff `currStart ≤ prevEnd + distance`, with `prevEnd` then
updated to the record's end; a valid record failing the test terminates
the scan immediately, producing no further output. -/
theorem C1_down_chain_accept_iff (d p s e : Int) (line : PyStr) (rest : List PyStr)
    (h4 : ¬ (splitTab line).length < 4)
    (h1 : pyInt? ((splitTab line).getD 1 []) = some s)
    (h2 : pyInt? ((splitTab line).getD 2 []) = some e) :
    (s ≤ p + d → downLoop d p (line :: rest) = line :: downLoop d e rest) ∧
    (¬ s ≤ p + d → downLoop d p (line :: rest) = []) := by
  rw [downLoop_cons_valid d p s e line rest h4 h1 h2]
  constructor <;> intro hp
  · rw [if_pos hp]
  · rw [if_neg hp]

/-- Witness for C1: the record `chr1 200 300 b` is accepted after
`prevEnd = 100` with `distance = 500`, and `chr1 900 1000 c` then
terminates the scan (`900 > 300 + 500`). -/
theorem C1_down_chain_accept_iff_wit :
    (downLoop 500 100 ["chr1\t200\t300\tb".toList, "chr1\t900\t1000\tc".toList] =
      "chr1\t200\t300\tb".toList :: downLoop 500 300 ["chr1\t900\t1000\tc".toList]) ∧
    (downLoop 500 300 ["chr1\t900\t1000\tc".toList] = []) := by
  have ha := C1_down_chain_accept_iff 500 100 200 300 "chr1\t200\t300\tb".toList
    ["chr1\t900\t1000\tc".toList] (by decide) (by decide) (by decide)
  have hb := C1_down_chain_accept_iff 500 300 900 1000 "chr1\t900\t1000\tc".toList []
    (by decide) (by decide) (by decide)
  exact ⟨ha.1 (by decide), hb.2 (by decide)⟩

/-- C2: In FromCoordinate mode (`up.py`), after the anchor, a valid
same-chromosome record is accepted iff it overlaps the previous accepted
interval (`currStart < prevEnd ∧ currEnd > prevStart`) or the one-sided
gap (`currStart − prevEnd` when `currStart ≥ prevEnd`, else
`prevStart − currEnd`, floored at 0) is ≤ `distance`; the first failing
record terminates the scan. -/
theorem C2_up_chain_accept_iff (d ps pe s e : Int) (c : PyStr) (line : List PyStr)
    (rest : List (List PyStr))
    (h4 : ¬ line.length < 4) (hc : line.getD 0 [] = c)
    (h1 : pyInt? (line.getD 1 []) = some s) (h2 : pyInt? (line.getD 2 []) = some e) :
    ((s < pe ∧ e > ps) ∨ (if s ≥ pe then max 0 (s - pe) else max 0 (ps - e)) ≤ d →
      upLoop d c ps pe (line :: rest) = line :: upLoop d c s e rest) ∧
    (¬ ((s < pe ∧ e > ps) ∨ (if s ≥ pe then max 0 (s - pe) else max 0 (ps - e)) ≤ d) →
      upLoop d c ps pe (line :: rest) = []) := by
  rw [upLoop_cons_valid d ps pe s e c line rest h4 hc h1 h2]
  constructor <;> intro hp
  · rw [if_pos hp]
  · rw [if_neg hp]

/-- Witness for C2: after `[100, 300)` on `chr1`, the overlapping record
`chr1 290 400 y` is accepted, and `chr1 900 1000 w` (gap 600 > 50)
terminates the scan. -/
theorem C2_up_chain_accept_iff_wit :
    (upLoop 50 "chr1".toList 100 300
        [["chr1".toList, "290".toList, "400".toList, "y".toList]] =
      ["chr1".toList, "290".toList, "400".toList, "y".toList] ::
        upLoop 50 "chr1".toList 290 400 []) ∧
    (upLoop 50 "chr1".toList 290 400
        [["chr1".toList, "900".toList, "1000".toList, "w".toList]] = []) := by
  have ha := C2_up_chain_accept_iff 50 100 300 290 400 "chr1".toList
    ["chr1".toList, "290".toList, "400".toList, "y".toList] [] (by decide) (by decide)
    (by decide) (by decide)
  have hb := C2_up_chain_accept_iff 50 290 400 900 1000 "chr1".toList
    ["chr1".toList, "900".toList, "1000".toList, "w".toList] [] (by decide) (by decide)
    (by decide) (by decide)
  exact ⟨ha.1 (by decide), hb.2 (by decide)⟩

/-- C5 counterexample: the claim fails in FromCoordinate mode.  A ≥4-field
record with non-integer coordinates on a *different* chromosome
(`chr2 abc def y`) is not skipped: it terminates the run, so the following
valid record `chr1 290 400 z` is never examined, whereas with the
malformed record removed it is accepted. -/
theorem C5_cex :
    upMain ["chr1\t100\t300\tx".toList, "chr2\tabc\tdef\ty".toList,
        "chr1\t290\t400\tz".toList] 250 50 =
      [["chr1".toList, "100".toList, "300".toList, "x".toList]] ∧
    upMain ["chr1\t100\t300\tx".toList, "chr1\t290\t400\tz".toList] 250 50 =
      [["chr1".toList, "100".toList, "300".toList, "x".toList],
       ["chr1".toList, "290".toList, "400".toList, "z".toList]] := by decide

/-- C5 amended: in FromFirstRecord mode every record with <4 fields or
non-integer coordinates is skipped without terminating and without state
change, regardless of chromosome.  In FromCoordinate mode this holds for
records with <4 fields regardless of chromosome, and for ≥4-field records
with non-integer coordinates only when their chromosome matches the
window's; a ≥4-field record on a different chromosome terminates the scan
even when its coordinates are non-integer. -/
theorem C5_scan_skip_amended :
    (∀ (d p : Int) (line : PyStr) (rest : List PyStr),
      (splitTab line).length < 4 →
        downLoop d p (line :: rest) = downLoop d p rest) ∧
    (∀ (d p : Int) (line : PyStr) (rest : List PyStr),
      ¬ (splitTab line).length < 4 →
      (pyInt? ((splitTab line).getD 1 []) = none ∨
        pyInt? ((splitTab line).getD 2 []) = none) →
        downLoop d p (line :: rest) = downLoop d p rest) ∧
    (∀ (d ps pe : Int) (c : PyStr) (line : List PyStr) (rest : List (List PyStr)),
      line.length < 4 → upLoop d c ps pe (line :: rest) = upLoop d c ps pe rest) ∧
    (∀ (d ps pe : Int) (c : PyStr) (line : List PyStr) (rest : List (List PyStr)),
      ¬ line.length < 4 → line.getD 0 [] = c →
      (pyInt? (line.getD 1 []) = none ∨ pyInt? (line.getD 2 []) = none) →
        upLoop d c ps pe (line :: rest) = upLoop d c ps pe rest) ∧
    (∀ (d ps pe : Int) (c : PyStr) (line : List PyStr) (rest : List (List PyStr)),
      ¬ line.length < 4 → line.getD 0 [] ≠ c →
        upLoop d c ps pe (line :: rest) = []) := by
  refine ⟨?_, ?_, ?_, ?_, ?_⟩
  · intro d p line rest h4
    exact downLoop_cons_short d p line rest h4
  · intro d p line rest h4 hbad
    cases h1 : pyInt? ((splitTab line).getD 1 []) with
    | none => exact downLoop_cons_bad1 d p line rest h4 h1
    | some s =>
      rcases hbad with hb | hb
      · rw [h1] at hb; cases hb
      · exact downLoop_cons_bad2 d p s line rest h4 h1 hb
  · intro d ps pe c line rest h4
    exact upLoop_cons_short d ps pe c line rest h4
  · intro d ps pe c line rest h4 hc hbad
    cases h1 : pyInt? (line.getD 1 []) with
    | none => exact upLoop_cons_bad1 d ps pe c line rest h4 hc h1
    | some s =>
      rcases hbad with hb | hb
      · rw [h1] at hb; cases hb
      · exact upLoop_cons_bad2 d ps pe s c line rest h4 hc h1 hb
  · intro d ps pe c line rest h4 hc
    exact upLoop_cons_diffchrom d ps pe c line rest h4 hc

/-- Witness for C5 amended, at concrete records: a 1-field line and a
`chr1 abc 200 w` line are skipped by the down scan; a 1-field line and a
same-chromosome `chr1 abc 200 w` line are skipped by the up scan; and a
different-chromosome malformed line terminates the up scan. -/
theorem C5_scan_skip_amended_wit :
    (downLoop 500 100 ["bad".toList, "chr1\t200\t300\tb".toList] =
      downLoop 500 100 ["chr1\t200\t300\tb".toList]) ∧
    (downLoop 500 100 ["chr1\tabc\t200\tw".toList] = downLoop 500 100 []) ∧
    (upLoop 50 "chr1".toList 100 300 [["bad".toList]] =
      upLoop 50 "chr1".toList 100 300 []) ∧
    (upLoop 50 "chr1".toList 100 300
        [["chr1".toList, "abc".toList, "200".toList, "w".toList]] =
      upLoop 50 "chr1".toList 100 300 []) ∧
    (upLoop 50 "chr1".toList 100 300
        [["chr2".toList, "abc".toList, "def".toList, "y".toList]] = []) := by
  refine ⟨?_, ?_, ?_, ?_, ?_⟩
  · exact C5_scan_skip_amended.1 500 100 "bad".toList ["chr1\t200\t300\tb".toList]
      (by decide)
  · exact C5_scan_skip_amended.2.1 500 100 "chr1\tabc\t200\tw".toList []
      (by decide) (Or.inl (by decide))
  · exact C5_scan_skip_amended.2.2.1 50 100 300 "chr1".toList ["bad".toList] []
      (by decide)
  · exact C5_scan_skip_amended.2.2.2.1 50 100 300 "chr1".toList
      ["chr1".toList, "abc".toList, "200".toList, "w".toList] [] (by decide)
      (by decide) (Or.inl (by decide))
  · exact C5_scan_skip_amended.2.2.2.2 50 100 300 "chr1".toList
      ["chr2".toList, "abc".toList, "def".toList, "y".toList] [] (by decide)
      (by decide)

/-- C6: In FromCoordinate mode the first ≥4-field record whose chromosome
differs from the window's terminates the scan immediately; in
FromFirstRecord mode the chromosome of a subsequent record is never
examined — the first field is universally quantified and unconstrained, so
a record on any chromosome is accepted exactly when the numeric chaining
predicate holds. -/
theorem C6_chromosome_handling :
    (∀ (d ps pe : Int) (c : PyStr) (line : List PyStr) (rest : List (List PyStr)),
      ¬ line.length < 4 → line.getD 0 [] ≠ c →
        upLoop d c ps pe (line :: rest) = []) ∧
    (∀ (d p s e : Int) (chromF f1 f2 f3 : PyStr) (fs : List PyStr)
        (line : PyStr) (rest : List PyStr),
      splitTab line = chromF :: f1 :: f2 :: f3 :: fs →
      pyInt? f1 = some s → pyInt? f2 = some e →
        ((s ≤ p + d → downLoop d p (line :: rest) = line :: downLoop d e rest) ∧
         (¬ s ≤ p + d → downLoop d p (line :: rest) = []))) := by
  constructor
  · intro d ps pe c line rest h4 hc
    exact upLoop_cons_diffchrom d ps pe c line rest h4 hc
  · intro d p s e chromF f1 f2 f3 fs line rest hsplit h1 h2
    have h4 : ¬ (splitTab line).length < 4 := by
      rw [hsplit]; simp [Nat.not_lt, Nat.le_add_left]
    have g1 : pyInt? ((splitTab line).getD 1 []) = some s := by rw [hsplit]; exact h1
    have g2 : pyInt? ((splitTab line).getD 2 []) = some e := by rw [hsplit]; exact h2
    rw [downLoop_cons_valid d p s e line rest h4 g1 g2]
    constructor <;> intro hp
    · rw [if_pos hp]
    · rw [if_neg hp]

/-- Witness for C6: a ≥4-field `chr2` record terminates the up scan whose
window is on `chr1`; and the down scan accepts a record on a different
chromosome (`chr9`) because only the numeric predicate is tested. -/
theorem C6_chromosome_handling_wit :
    (upLoop 50 "chr1".toList 100 300
        [["chr2".toList, "500".toList, "600".toList, "z".toList]] = []) ∧
    (downLoop 500 100 ["chr9\t150\t200\tb".toList] =
      "chr9\t150\t200\tb".toList :: downLoop 500 200 []) := by
  constructor
  · exact C6_chromosome_handling.1 50 100 300 "chr1".toList
      ["chr2".toList, "500".toList, "600".toList, "z".toList] [] (by decide) (by decide)
  · exact (C6_chromosome_handling.2 500 100 150 200 "chr9".toList "150".toList
      "200".toList "b".toList [] "chr9\t150\t200\tb".toList [] (by decide) (by decide)
      (by decide)).1 (by decide)

/-- C7 (code bug in `down.py`): at the anchor, a non-integer *start*
column returns an empty result in both modes, and a non-integer *end*
column returns empty in `up.py`; but in `down.py` the anchor's
`prev_end = int(parts[2])` sits outside the `try` block, so a non-integer
end column raises an uncaught `ValueError` (modelled as `none`) instead of
returning the empty result the claim describes. -/
theorem C7_anchor_parse_behavior :
    process_bed ["chr1\t5\tabc\tx".toList] 500 = none ∧
    process_bed ["chr1\tabc\t200\tx".toList] 500 = some [] ∧
    upMain ["chr1\tabc\t200\tx".toList] 250 500 = [] ∧
    upMain ["chr1\t100\tabc\tx".toList] 250 500 = [] := by decide

/-- C3: Anchor establishment.  In FromFirstRecord mode the first
candidate (the first non-blank line) with ≥4 fields and integer start
must additionally satisfy `start − 1 ≤ distance`, otherwise the result is
empty; in FromCoordinate mode the first record, when parseable, is the
anchor iff `|target − end| ≤ distance`, and when it fails the test the
result is empty — in neither mode does the search advance past a failing
first candidate. -/
theorem C3_anchor_establishment (raw raw' : List PyStr) (d tgt st en st' en' : Int)
    (f : PyStr) (rest : List PyStr) (g : List PyStr) (rest' : List (List PyStr)) :
    ((raw.map pyStrip).filter (fun l => !l.isEmpty) = f :: rest →
      ¬ (splitTab f).length < 4 →
      pyInt? ((splitTab f).getD 1 []) = some st →
      ((st - 1 > d → process_bed raw d = some []) ∧
       (¬ st - 1 > d → pyInt? ((splitTab f).getD 2 []) = some en →
         process_bed raw d = some (f :: downLoop d en rest)))) ∧
    (raw'.map parseLine = g :: rest' →
      ¬ g.length < 4 →
      pyInt? (g.getD 1 []) = some st' →
      pyInt? (g.getD 2 []) = some en' →
      ((|tgt - en'| > d → upMain raw' tgt d = []) ∧
       (¬ |tgt - en'| > d →
         upMain raw' tgt d = g :: upLoop d (g.getD 0 []) st' en' rest'))) := by
  constructor
  · intro hl h4 h1
    constructor
    · intro hfar; exact process_bed_far raw d st f rest hl h4 h1 hfar
    · intro hnear h2; exact process_bed_anchor raw d st en f rest hl h4 h1 hnear h2
  · intro hl h4 h1 h2
    constructor
    · intro hfar; exact upMain_far raw' tgt d st' en' g rest' hl h4 h1 h2 hfar
    · intro hnear; exact upMain_anchor raw' tgt d st' en' g rest' hl h4 h1 h2 hnear

/-- Witness for C3: `chr1 1000 1100 a` fails the down anchor test at
distance 500 (`999 > 500`, empty result); `chr1 0 100 a` passes it; a
first record ending at 300 fails the up anchor test for target 400 at
distance 50 (empty result) and passes it for target 250. -/
theorem C3_anchor_establishment_wit :
    process_bed ["chr1\t1000\t1100\ta".toList] 500 = some [] ∧
    process_bed ["chr1\t0\t100\ta".toList] 500 =
      some ("chr1\t0\t100\ta".toList :: downLoop 500 100 []) ∧
    upMain ["chr1\t100\t300\tx".toList] 400 50 = [] ∧
    upMain ["chr1\t100\t300\tx".toList] 250 50 =
      ["chr1".toList, "100".toList, "300".toList, "x".toList] ::
        upLoop 50 "chr1".toList 100 300 [] := by
  refine ⟨?_, ?_, ?_, ?_⟩
  · exact ((C3_anchor_establishment ["chr1\t1000\t1100\ta".toList] [] 500 0 1000 0 0 0
      "chr1\t1000\t1100\ta".toList [] [] []).1 (by decide) (by decide) (by decide)).1
      (by decide)
  · exact ((C3_anchor_establishment ["chr1\t0\t100\ta".toList] [] 500 0 0 100 0 0
      "chr1\t0\t100\ta".toList [] [] []).1 (by decide) (by decide) (by decide)).2
      (by decide) (by decide)
  · exact ((C3_anchor_establishment [] ["chr1\t100\t300\tx".toList] 50 400 0 0 100 300
      [] [] ["chr1".toList, "100".toList, "300".toList, "x".toList] []).2 (by decide)
      (by decide) (by decide) (by decide)).1 (by decide)
  · exact ((C3_anchor_establishment [] ["chr1\t100\t300\tx".toList] 50 250 0 0 100 300
      [] [] ["chr1".toList, "100".toList, "300".toList, "x".toList] []).2 (by decide)
      (by decide) (by decide) (by decide)).2 (by decide)

theorem process_bed_congr (raw raw2 : List PyStr) (d : Int)
    (h : (raw.map pyStrip).filter (fun l => !l.isEmpty) =
         (raw2.map pyStrip).filter (fun l => !l.isEmpty)) :
    process_bed raw d = process_bed raw2 d := by
  simp only [process_bed]; rw [h]

theorem parseLine_blank (w : PyStr) (hw : pyStrip w = []) : parseLine w = [] := by
  rw [parseLine, hw]; rfl

/-- C8 counterexample: in FromCoordinate mode a blank first line is *not*
discarded before processing — with it present the result is empty, while
without it the next record anchors the run. -/
theorem C8_cex :
    upMain ["".toList, "chr1\t100\t300\tx".toList] 250 50 = [] ∧
    upMain ["chr1\t100\t300\tx".toList] 250 50 =
      [["chr1".toList, "100".toList, "300".toList, "x".toList]] := by decide

/-- C8 amended: in FromFirstRecord mode blank (whitespace-only) lines
anywhere are discarded before any processing, and an all-blank input
yields the empty result.  In FromCoordinate mode an all-blank input also
yields the empty result and a blank line mid-scan is skipped (it parses to
0 fields), but a blank *first* line is itself taken as the anchor
candidate and makes the result empty — it does prevent the next non-blank
record from anchoring. -/
theorem C8_blank_lines_amended :
    (∀ (raw1 raw2 : List PyStr) (w : PyStr) (d : Int), pyStrip w = [] →
      process_bed (raw1 ++ w :: raw2) d = process_bed (raw1 ++ raw2) d) ∧
    (∀ (raw : List PyStr) (d : Int), (∀ l ∈ raw, pyStrip l = []) →
      process_bed raw d = some []) ∧
    (∀ (raw : List PyStr) (w : PyStr) (tgt d : Int), pyStrip w = [] →
      upMain (w :: raw) tgt d = []) ∧
    (∀ (d ps pe : Int) (c w : PyStr) (rest : List (List PyStr)), pyStrip w = [] →
      upLoop d c ps pe (parseLine w :: rest) = upLoop d c ps pe rest) ∧
    (∀ (raw : List PyStr) (tgt d : Int), (∀ l ∈ raw, pyStrip l = []) →
      upMain raw tgt d = []) := by
  refine ⟨?_, ?_, ?_, ?_, ?_⟩
  · intro raw1 raw2 w d hw
    apply process_bed_congr
    simp [List.filter_append, List.filter_cons, hw]
  · intro raw d hall
    apply process_bed_lines_nil
    rw [List.filter_eq_nil_iff]
    intro a ha
    rcases List.mem_map.1 ha with ⟨l, hl, rfl⟩
    simp [hall l hl]
  · intro raw w tgt d hw
    exact upMain_short (w :: raw) tgt d [] (raw.map parseLine)
      (by rw [List.map_cons, parseLine_blank w hw]) (by decide)
  · intro d ps pe c w rest hw
    rw [parseLine_blank w hw]
    exact upLoop_cons_short d ps pe c [] rest (by decide)
  · intro raw tgt d hall
    cases raw with
    | nil => exact upMain_nil tgt d
    | cons r raw' =>
      exact upMain_short (r :: raw') tgt d [] (raw'.map parseLine)
        (by rw [List.map_cons, parseLine_blank r (hall r (List.mem_cons_self r raw'))])
        (by decide)

/-- Witness for C8 amended at concrete inputs: a whitespace-only line is
discarded by `down.py` wherever it occurs; an all-blank input returns
empty in both modes; a blank first line returns empty in `up.py`; a blank
line mid-scan is skipped by the up scan. -/
theorem C8_blank_lines_amended_wit :
    process_bed ["  ".toList, "chr1\t0\t100\ta".toList] 500 =
      process_bed ["chr1\t0\t100\ta".toList] 500 ∧
    process_bed ["  ".toList, "".toList] 500 = some [] ∧
    upMain [" \t ".toList, "chr1\t100\t300\tx".toList] 250 50 = [] ∧
    upLoop 50 "chr1".toList 100 300
        (parseLine "  ".toList :: [["chr1".toList, "290".toList, "400".toList, "y".toList]]) =
      upLoop 50 "chr1".toList 100 300
        [["chr1".toList, "290".toList, "400".toList, "y".toList]] ∧
    upMain ["".toList, "  ".toList] 250 50 = [] := by
  refine ⟨?_, ?_, ?_, ?_, ?_⟩
  · exact C8_blank_lines_amended.1 [] ["chr1\t0\t100\ta".toList] "  ".toList 500
      (by decide)
  · exact C8_blank_lines_amended.2.1 ["  ".toList, "".toList] 500 (by decide)
  · exact C8_blank_lines_amended.2.2.1 ["chr1\t100\t300\tx".toList] " \t ".toList 250 50
      (by decide)
  · exact C8_blank_lines_amended.2.2.2.1 50 100 300 "chr1".toList "  ".toList
      [["chr1".toList, "290".toList, "400".toList, "y".toList]] (by decide)
  · exact C8_blank_lines_amended.2.2.2.2 ["".toList, "  ".toList] 250 50 (by decide)

theorem process_bed_cases (raw : List PyStr) (d : Int) :
    process_bed raw d = some [] ∨
    (∃ st en f rest,
      (raw.map pyStrip).filter (fun l => !l.isEmpty) = f :: rest ∧
      ¬ (splitTab f).length < 4 ∧
      pyInt? ((splitTab f).getD 1 []) = some st ∧
      ¬ st - 1 > d ∧
      pyInt? ((splitTab f).getD 2 []) = some en ∧
      process_bed raw d = some (f :: downLoop d en rest)) ∨
    process_bed raw d = none := by
  cases hl : (raw.map pyStrip).filter (fun l => !l.isEmpty) with
  | nil => exact Or.inl (process_bed_lines_nil raw d hl)
  | cons f rest =>
    by_cases h4 : (splitTab f).length < 4
    · exact Or.inl (process_bed_short raw d f rest hl h4)
    · cases h1 : pyInt? ((splitTab f).getD 1 []) with
      | none => exact Or.inl (process_bed_bad1 raw d f rest hl h4 h1)
      | some st =>
        by_cases hfar : st - 1 > d
        · exact Or.inl (process_bed_far raw d st f rest hl h4 h1 hfar)
        · cases h2 : pyInt? ((splitTab f).getD 2 []) with
          | none =>
            exact Or.inr (Or.inr (process_bed_crash raw d st f rest hl h4 h1 hfar h2))
          | some en =>
            exact Or.inr (Or.inl ⟨st, en, f, rest, rfl, h4, h1, hfar, h2,
              process_bed_anchor raw d st en f rest hl h4 h1 hfar h2⟩)

theorem upMain_cases (raw : List PyStr) (tgt d : Int) :
    upMain raw tgt d = [] ∨
    (∃ st en g rest,
      raw.map parseLine = g :: rest ∧ ¬ g.length < 4 ∧
      pyInt? (g.getD 1 []) = some st ∧ pyInt? (g.getD 2 []) = some en ∧
      ¬ |tgt - en| > d ∧
      upMain raw tgt d = g :: upLoop d (g.getD 0 []) st en rest) := by
  cases hr : raw with
  | nil => exact Or.inl (upMain_nil tgt d)
  | cons r raw' =>
    have hl : (r :: raw').map parseLine = parseLine r :: raw'.map parseLine :=
      List.map_cons parseLine r raw'
    by_cases h4 : (parseLine r).length < 4
    · exact Or.inl (upMain_short _ tgt d _ _ hl h4)
    · cases h1 : pyInt? ((parseLine r).getD 1 []) with
      | none => exact Or.inl (upMain_bad1 _ tgt d _ _ hl h4 h1)
      | some st =>
        cases h2 : pyInt? ((parseLine r).getD 2 []) with
        | none => exact Or.inl (upMain_bad2 _ tgt d st _ _ hl h4 h1 h2)
        | some en =>
          by_cases hfar : |tgt - en| > d
          · exact Or.inl (upMain_far _ tgt d st en _ _ hl h4 h1 h2 hfar)
          · exact Or.inr ⟨st, en, parseLine r, raw'.map parseLine, hl, h4, h1, h2, hfar,
              upMain_anchor _ tgt d st en _ _ hl h4 h1 h2 hfar⟩

/-- C4 counterexample: with a malformed line mid-run, the output is not a
prefix of the input's record sequence (the malformed middle record is
skipped but the scan continues past it). -/
theorem C4_cex :
    process_bed ["chr1\t0\t100\ta".toList, "bad".toList,
        "chr1\t150\t200\tb".toList] 500 =
      some ["chr1\t0\t100\ta".toList, "chr1\t150\t200\tb".toList] ∧
    List.isPrefixOf ["chr1\t0\t100\ta".toList, "chr1\t150\t200\tb".toList]
      ["chr1\t0\t100\ta".toList, "bad".toList, "chr1\t150\t200\tb".toList] = false := by
  decide

/-- C4 amended: in both modes, for every input and distance, the returned
record sequence is an order-preserving subsequence (sublist) of the
input's record sequence — length ≤ input length, no record reordered —
though not necessarily a contiguous prefix of it. -/
theorem C4_result_sublist :
    (∀ (raw : List PyStr) (d : Int) (out : List PyStr),
      process_bed raw d = some out → List.Sublist out (raw.map pyStrip)) ∧
    (∀ (raw : List PyStr) (tgt d : Int),
      List.Sublist (upMain raw tgt d) (raw.map parseLine)) := by
  constructor
  · intro raw d out h
    rcases process_bed_cases raw d with hc | ⟨st, en, f, rest, hl, h4, h1, hfar, h2, hc⟩ | hc
    · rw [hc] at h
      cases h
      exact List.nil_sublist _
    · rw [hc] at h
      cases h
      have hsub : List.Sublist (f :: downLoop d en rest) (f :: rest) :=
        (downLoop_sublist d rest en).cons₂ f
      have hfil : List.Sublist (f :: rest) (raw.map pyStrip) := by
        rw [← hl]; exact List.filter_sublist _
      exact hsub.trans hfil
    · rw [hc] at h; cases h
  · intro raw tgt d
    rcases upMain_cases raw tgt d with hc | ⟨st, en, g, rest, hl, h4, h1, h2, hfar, hc⟩
    · rw [hc]; exact List.nil_sublist _
    · rw [hc, hl]
      exact (upLoop_sublist d (g.getD 0 []) rest st en).cons₂ g

/-- Witness for C4 amended at concrete inputs (the counterexample input
and a two-record up input). -/
theorem C4_result_sublist_wit :
    List.Sublist ["chr1\t0\t100\ta".toList, "chr1\t150\t200\tb".toList]
      (["chr1\t0\t100\ta".toList, "bad".toList,
        "chr1\t150\t200\tb".toList].map pyStrip) ∧
    List.Sublist
      (upMain ["chr1\t100\t300\tx".toList, "chr1\t290\t400\ty".toList] 250 50)
      (["chr1\t100\t300\tx".toList, "chr1\t290\t400\ty".toList].map parseLine) := by
  constructor
  · exact C4_result_sublist.1
      ["chr1\t0\t100\ta".toList, "bad".toList, "chr1\t150\t200\tb".toList] 500
      ["chr1\t0\t100\ta".toList, "chr1\t150\t200\tb".toList] (by decide)
  · exact C4_result_sublist.2
      ["chr1\t100\t300\tx".toList, "chr1\t290\t400\ty".toList] 250 50

/-- C9: Monotonicity in the distance threshold.  For a fixed input (and
fixed target in FromCoordinate mode) and `d ≤ d'`, every record accepted
at distance `d` is also accepted at distance `d'`: the `d`-run is a
contiguous front segment of the `d'`-run.  (In FromFirstRecord mode the
statement is conditioned on both runs returning normally; the run at `d`
can only crash if the run at `d'` does.) -/
theorem C9_distance_monotone (d dd : Int) (hd : d ≤ dd) :
    (∀ (raw : List PyStr) (out out' : List PyStr),
      process_bed raw d = some out → process_bed raw dd = some out' →
      ∃ t, out ++ t = out') ∧
    (∀ (raw : List PyStr) (tgt : Int),
      ∃ t, upMain raw tgt d ++ t = upMain raw tgt dd) := by
  constructor
  · intro raw out out' h h'
    rcases process_bed_cases raw d with hc | ⟨st, en, f, rest, hl, h4, h1, hfar, h2, hc⟩ | hc
    · rw [hc] at h
      cases h
      exact ⟨out', rfl⟩
    · rw [hc] at h
      cases h
      have hfar' : ¬ st - 1 > dd := fun hgt => hfar (by linarith)
      rw [process_bed_anchor raw dd st en f rest hl h4 h1 hfar' h2] at h'
      cases h'
      obtain ⟨t, ht⟩ := downLoop_mono d dd hd rest en
      exact ⟨t, by rw [List.cons_append, ht]⟩
    · rw [hc] at h; cases h
  · intro raw tgt
    rcases upMain_cases raw tgt d with hc | ⟨st, en, g, rest, hl, h4, h1, h2, hfar, hc⟩
    · rw [hc]; exact ⟨upMain raw tgt dd, rfl⟩
    · have hfar' : ¬ |tgt - en| > dd := fun hgt => hfar (by linarith)
      rw [hc, upMain_anchor raw tgt dd st en g rest hl h4 h1 h2 hfar']
      obtain ⟨t, ht⟩ := upLoop_mono d dd hd (g.getD 0 []) rest st en
      exact ⟨t, by rw [List.cons_append, ht]⟩

/-- Witness for C9: on the three-record Scenario-A input, the run at
distance 50 (anchor only) is a front segment of the run at distance 500
(anchor plus the second record); and likewise for a concrete up input at
distances 50 and 700. -/
theorem C9_distance_monotone_wit :
    (∃ t, ["chr1\t0\t100\ta".toList] ++ t =
      ["chr1\t0\t100\ta".toList, "chr1\t200\t300\tb".toList]) ∧
    (∃ t, upMain ["chr1\t100\t300\tx".toList, "chr1\t900\t1000\tw".toList] 250 50 ++ t =
      upMain ["chr1\t100\t300\tx".toList, "chr1\t900\t1000\tw".toList] 250 700) := by
  constructor
  · exact (C9_distance_monotone 50 500 (by decide)).1
      ["chr1\t0\t100\ta".toList, "chr1\t200\t300\tb".toList, "chr1\t900\t1000\tc".toList]
      ["chr1\t0\t100\ta".toList]
      ["chr1\t0\t100\ta".toList, "chr1\t200\t300\tb".toList] (by decide) (by decide)
  · exact (C9_distance_monotone 50 700 (by decide)).2
      ["chr1\t100\t300\tx".toList, "chr1\t900\t1000\tw".toList] 250

/-! ### String round-trip lemmas for idempotence -/

theorem rdrop_take_decomp (p : Char → Bool) (u : PyStr) :
    List.rdropWhile p u ++ List.rtakeWhile p u = u := by
  rw [List.rdropWhile, List.rtakeWhile, ← List.reverse_append,
    List.takeWhile_append_dropWhile, List.reverse_reverse]

theorem pyStrip_idem (s : PyStr) : pyStrip (pyStrip s) = pyStrip s := by
  unfold pyStrip
  have hdecomp := rdrop_take_decomp isPySpace (List.dropWhile isPySpace s)
  have hdrop : List.dropWhile isPySpace
      (List.rdropWhile isPySpace (List.dropWhile isPySpace s)) =
      List.rdropWhile isPySpace (List.dropWhile isPySpace s) := by
    cases hv : List.rdropWhile isPySpace (List.dropWhile isPySpace s) with
    | nil => rfl
    | cons c v' =>
      have hu : List.dropWhile isPySpace s =
          c :: (v' ++ List.rtakeWhile isPySpace (List.dropWhile isPySpace s)) := by
        conv_lhs => rw [← hdecomp, hv]
        rw [List.cons_append]
      have h := List.head?_dropWhile_not isPySpace s
      rw [hu] at h
      simp only [List.head?_cons] at h
      rw [List.dropWhile_cons, if_neg (by simp [h])]
  rw [hdrop, List.rdropWhile_idempotent]

theorem splitWsAux_tokens (s : PyStr) : ∀ (acc : PyStr),
    (∀ ch ∈ acc, isPySpace ch = false) →
    ∀ t ∈ splitWsAux s acc, t ≠ [] ∧ ∀ ch ∈ t, isPySpace ch = false := by
  induction s with
  | nil =>
    intro acc hacc t ht
    rw [splitWsAux] at ht
    by_cases ha : acc.isEmpty
    · rw [if_pos ha] at ht; cases ht
    · rw [if_neg ha] at ht
      rcases List.mem_singleton.1 ht with rfl
      refine ⟨by simpa [List.isEmpty_iff] using ha, ?_⟩
      intro ch hch
      exact hacc ch (List.mem_reverse.1 hch)
  | cons c rest ih =>
    intro acc hacc t ht
    rw [splitWsAux] at ht
    by_cases hc : isPySpace c = true
    · rw [if_pos hc] at ht
      rcases List.mem_append.1 ht with h1 | h2
      · by_cases ha : acc.isEmpty
        · rw [if_pos ha] at h1; cases h1
        · rw [if_neg ha] at h1
          rcases List.mem_singleton.1 h1 with rfl
          refine ⟨by simpa [List.isEmpty_iff] using ha, ?_⟩
          intro ch hch
          exact hacc ch (List.mem_reverse.1 hch)
      · exact ih [] (by simp) t h2
    · rw [if_neg hc] at ht
      refine ih (c :: acc) ?_ t ht
      intro ch hch
      rcases List.mem_cons.1 hch with rfl | hm
      · simpa using hc
      · exact hacc ch hm

theorem splitWs_tokens (s : PyStr) :
    ∀ t ∈ splitWs s, t ≠ [] ∧ ∀ ch ∈ t, isPySpace ch = false :=
  splitWsAux_tokens s [] (by simp)

theorem splitWsAux_token_prepend (t : PyStr) : ∀ (s acc : PyStr),
    (∀ ch ∈ t, isPySpace ch = false) →
    splitWsAux (t ++ s) acc = splitWsAux s (t.reverse ++ acc) := by
  induction t with
  | nil => intro s acc h; simp
  | cons c t' ih =>
    intro s acc h
    have hc : ¬ isPySpace c = true := by
      simp [h c (List.mem_cons_self c t')]
    rw [List.cons_append, splitWsAux, if_neg hc,
      ih s (c :: acc) (fun ch hch => h ch (List.mem_cons_of_mem c hch)),
      List.reverse_cons, List.append_assoc, List.singleton_append]

theorem splitWsAux_all_space (w : PyStr) (hw : ∀ ch ∈ w, isPySpace ch = true) :
    splitWsAux w [] = [] := by
  induction w with
  | nil => rfl
  | cons c w' ih =>
    have := ih (fun ch hch => hw ch (List.mem_cons_of_mem c hch))
    rw [splitWsAux, if_pos (hw c (List.mem_cons_self c w'))]
    simpa using this

theorem splitWsAux_append_space (w : PyStr) (hw : ∀ ch ∈ w, isPySpace ch = true)
    (s : PyStr) : ∀ acc, splitWsAux (s ++ w) acc = splitWsAux s acc := by
  induction s with
  | nil =>
    intro acc
    rw [List.nil_append]
    cases w with
    | nil => rfl
    | cons c w' =>
      conv_lhs => rw [splitWsAux]
      rw [if_pos (hw c (List.mem_cons_self c w')),
        splitWsAux_all_space w' (fun ch hch => hw ch (List.mem_cons_of_mem c hch)),
        List.append_nil]
      rfl
  | cons c s' ih =>
    intro acc
    rw [List.cons_append, splitWsAux]
    conv_rhs => rw [splitWsAux]
    by_cases hc : isPySpace c = true
    · rw [if_pos hc, if_pos hc, ih []]
    · rw [if_neg hc, if_neg hc, ih (c :: acc)]

theorem splitWsAux_dropWhile (s : PyStr) :
    splitWsAux (List.dropWhile isPySpace s) [] = splitWsAux s [] := by
  induction s with
  | nil => rfl
  | cons c s' ih =>
    rw [List.dropWhile_cons]
    by_cases hc : isPySpace c = true
    · rw [if_pos hc, ih]
      conv_rhs => rw [splitWsAux]
      rw [if_pos hc]
      simp
    · rw [if_neg hc]

theorem splitWs_pyStrip (s : PyStr) : splitWs (pyStrip s) = splitWs s := by
  have hdecomp := rdrop_take_decomp isPySpace (List.dropWhile isPySpace s)
  have hall : ∀ ch ∈ List.rtakeWhile isPySpace (List.dropWhile isPySpace s),
      isPySpace ch = true := fun ch hch => List.mem_rtakeWhile_imp hch
  show splitWsAux (pyStrip s) [] = splitWsAux s []
  calc splitWsAux (pyStrip s) []
      = splitWsAux (List.rdropWhile isPySpace (List.dropWhile isPySpace s) ++
          List.rtakeWhile isPySpace (List.dropWhile isPySpace s)) [] := by
        rw [splitWsAux_append_space _ hall]
        rfl
    _ = splitWsAux (List.dropWhile isPySpace s) [] := by rw [hdecomp]
    _ = splitWsAux s [] := splitWsAux_dropWhile s

theorem splitWs_joinTab (ts : List PyStr)
    (h : ∀ t ∈ ts, t ≠ [] ∧ ∀ ch ∈ t, isPySpace ch = false) :
    splitWs (joinTab ts) = ts := by
  induction ts with
  | nil => rfl
  | cons t ts' ih =>
    obtain ⟨hne, hns⟩ := h t (List.mem_cons_self t ts')
    cases ts' with
    | nil =>
      show splitWsAux (joinTab [t]) [] = [t]
      rw [joinTab, ← List.append_nil t, splitWsAux_token_prepend t [] [] hns]
      rw [splitWsAux]
      simp [hne]
    | cons t2 ts'' =>
      show splitWsAux (joinTab (t :: t2 :: ts'')) [] = t :: t2 :: ts''
      rw [joinTab, splitWsAux_token_prepend t _ [] hns, splitWsAux,
        if_pos (show isPySpace '\t' = true by rfl)]
      have hrest := ih (fun u hu => h u (List.mem_cons_of_mem t hu))
      show _ ++ splitWsAux (joinTab (t2 :: ts'')) [] = _
      rw [show splitWsAux (joinTab (t2 :: ts'')) [] = t2 :: ts'' from hrest]
      simp [hne]

theorem parseLine_joinTab (ts : List PyStr)
    (h : ∀ t ∈ ts, t ≠ [] ∧ ∀ ch ∈ t, isPySpace ch = false) :
    parseLine (joinTab ts) = ts := by
  rw [parseLine, splitWs_pyStrip]
  exact splitWs_joinTab ts h

/-- C10: Idempotence.  Re-running `down.py`'s extractor on its own output
(as a new input file) with the same distance returns that output
unchanged, and re-running `up.py`'s extractor on its own printed
(tab-joined) output with the same target and distance returns the same
records unchanged. -/
theorem C10_extractor_idempotent (raw : List PyStr) (tgt d : Int)
    (out : List PyStr) (uout : List (List PyStr)) :
    (process_bed raw d = some out → process_bed out d = some out) ∧
    (upMain raw tgt d = uout → upMain (uout.map joinTab) tgt d = uout) := by
  constructor
  · intro h
    rcases process_bed_cases raw d with hc | ⟨st, en, f, rest, hl, h4, h1, hfar, h2, hc⟩ | hc
    · rw [hc] at h
      cases h
      exact process_bed_lines_nil [] d rfl
    · rw [hc] at h
      cases h
      have hmem : ∀ l ∈ f :: downLoop d en rest,
          l ∈ (raw.map pyStrip).filter (fun x => !x.isEmpty) := by
        intro l hlm
        rcases List.mem_cons.1 hlm with rfl | hm
        · rw [hl]; exact List.mem_cons_self _ _
        · rw [hl]; exact List.mem_cons_of_mem _ ((downLoop_sublist d rest en).subset hm)
      have hfix : ∀ l ∈ f :: downLoop d en rest, pyStrip l = l ∧ l ≠ [] := by
        intro l hlm
        rcases List.mem_filter.1 (hmem l hlm) with ⟨hmap, hne⟩
        rcases List.mem_map.1 hmap with ⟨r, _, rfl⟩
        exact ⟨pyStrip_idem r, by simpa using hne⟩
      have hlines : ((f :: downLoop d en rest).map pyStrip).filter (fun x => !x.isEmpty)
          = f :: downLoop d en rest := by
        rw [List.map_congr_left (fun a ha => (hfix a ha).1), List.map_id']
        rw [List.filter_eq_self.2 (fun a ha => by simp [(hfix a ha).2])]
      rw [process_bed_anchor _ d st en f (downLoop d en rest) hlines h4 h1 hfar h2,
        downLoop_idem]
    · rw [hc] at h; cases h
  · intro h
    rcases upMain_cases raw tgt d with hc | ⟨st, en, g, rest, hl, h4, h1, h2, hfar, hc⟩
    · rw [hc] at h
      cases h
      rfl
    · rw [hc] at h
      cases h
      have hmem : ∀ l ∈ g :: upLoop d (g.getD 0 []) st en rest,
          l ∈ raw.map parseLine := by
        intro l hlm
        rcases List.mem_cons.1 hlm with rfl | hm
        · rw [hl]; exact List.mem_cons_self _ _
        · rw [hl]
          exact List.mem_cons_of_mem _ ((upLoop_sublist d _ rest st en).subset hm)
      have hfix : ∀ l ∈ g :: upLoop d (g.getD 0 []) st en rest,
          parseLine (joinTab l) = l := by
        intro l hlm
        rcases List.mem_map.1 (hmem l hlm) with ⟨r, _, rfl⟩
        exact parseLine_joinTab _ (splitWs_tokens (pyStrip r))
      have hlines : ((g :: upLoop d (g.getD 0 []) st en rest).map joinTab).map parseLine
          = g :: upLoop d (g.getD 0 []) st en rest := by
        rw [List.map_map,
          List.map_congr_left (f := parseLine ∘ joinTab) (g := fun a => a)
            (fun a ha => hfix a ha),
          List.map_id']
      rw [upMain_anchor _ tgt d st en g (upLoop d (g.getD 0 []) st en rest) hlines
        h4 h1 h2 hfar, upLoop_idem]

/-- Witness for C10: the two-record output of Scenario A re-processed by
`down.py` is returned unchanged, and the two-record output of a concrete
up run, tab-joined and re-parsed, is returned unchanged. -/
theorem C10_extractor_idempotent_wit :
    process_bed ["chr1\t0\t100\ta".toList, "chr1\t200\t300\tb".toList] 500 =
      some ["chr1\t0\t100\ta".toList, "chr1\t200\t300\tb".toList] ∧
    upMain ([["chr1".toList, "100".toList, "300".toList, "x".toList],
        ["chr1".toList, "290".toList, "400".toList, "y".toList]].map joinTab) 250 50 =
      [["chr1".toList, "100".toList, "300".toList, "x".toList],
       ["chr1".toList, "290".toList, "400".toList, "y".toList]] := by
  constructor
  · exact (C10_extractor_idempotent
      ["chr1\t0\t100\ta".toList, "chr1\t200\t300\tb".toList,
       "chr1\t900\t1000\tc".toList]
      0 500 ["chr1\t0\t100\ta".toList, "chr1\t200\t300\tb".toList] []).1 (by decide)
  · exact (C10_extractor_idempotent
      ["chr1\t100\t300\tx".toList, "chr1\t290\t400\ty".toList] 250 50 []
      [["chr1".toList, "100".toList, "300".toList, "x".toList],
       ["chr1".toList, "290".toList, "400".toList, "y".toList]]).2 (by decide)
